import Mathlib

/-!
Verification development for the elevio-core repository.

The repository source declares the data model (TopicDTO, SubmissionDTO and
AnswerDTO, ScoredTopicDTO, WeakpointDTO, DatasourceDTO) and the two strategy
contracts IScoringStrategy.calculateScore and
IWeakpointDetectorStrategy.detectWeakpoints, together with the concrete
ElevioCore entry point and the abstract Datasource base class.  The bodies of
calculateScore and detectWeakpoints are not part of the source (only their
interface declarations and documentation are), so those operations are
modelled here from the specification; the ElevioCore and Datasource code is
embedded directly from the source.  Scores are rational numbers, timestamps
are naturals, and the nested DTO references of the source are represented by
topic ids.
-/

namespace Elevio

/-- Modelled from the spec: status of a submission, one of pending, submitted
or corrected (section 3 of the spec; SubmissionDTO declares the same three
string literals). -/
inductive SubmissionStatus where
  | pending
  | submitted
  | corrected
deriving DecidableEq

/-- Modelled from the spec: a Topic node of the directed dependency graph
(TopicDTO in the source declares the same fields; the nested TopicDTO
references children, parent, dependencies and dependents are represented here
by ids, following the invariant of section 3 which speaks of each id in
dependencies and dependents; the lazily loaded children and parent object
caches are derived data and are omitted). -/
structure Topic where
  id : String
  name : String
  description : Option String
  parentId : Option String
  dependencies : List String
  dependents : List String
deriving DecidableEq

/-- Modelled from the spec: one answer of a submission (AnswerDTO in the
source); the score is optional and present only once corrected, and the
topics list is the fine grained topic tagging at the answer level,
represented by topic ids. -/
structure Answer where
  id : String
  questionId : String
  answerContent : String
  score : Option ℚ
  topics : List String
deriving DecidableEq

/-- Modelled from the spec: one learner attempt with one or more answers
(SubmissionDTO in the source); submittedAt is a timestamp. -/
structure Submission where
  id : String
  userId : String
  submittedAt : Nat
  status : SubmissionStatus
  totalScore : Option ℚ
  answers : List Answer
  topics : List String
deriving DecidableEq

/-- Modelled from the spec: a Topic extended with the computed scores
(ScoredTopicDTO in the source).  An unscored topic, one with an empty
evidence set, carries no performance score, hence the Option; the userId is
attached by the scoring pipeline context and the confidence is carried
forward for the weak point detector. -/
structure ScoredTopic where
  id : String
  name : String
  description : Option String
  parentId : Option String
  dependencies : List String
  dependents : List String
  userId : Option String
  performanceScore : Option ℚ
  disciplineScore : ℚ
  confidence : ℚ
  lastCalculatedAt : Nat
deriving DecidableEq

/-- Modelled from the spec: a derived weak point flag (WeakpointDTO in the
source), with a freshly generated identifier, the originating user and topic,
an optional embedded topic snapshot and the confidence copied from the
scoring computation. -/
structure Weakpoint where
  id : String
  userId : String
  topicId : String
  topic : Option Topic
  confidence : ℚ
  createdAt : Nat
  updatedAt : Nat
deriving DecidableEq

/-- Modelled from the spec: the error taxonomy of section 7, InvalidInput for
malformed or missing required arguments and ComputationError for an internal
inconsistency detected during computation. -/
inductive CoreError where
  | InvalidInput
  | ComputationError
deriving DecidableEq

/-- Modelled from the spec: tunable parameters of the scoring strategy; the
decay factor weighs inherited descendant evidence, direct evidence having
weight one and depth d descendant evidence weight decay to the d. -/
structure ScoringConfig where
  decay : ℚ
deriving DecidableEq

/-- Modelled from the spec: the default decay of one half, one level
descendant weight 0.5 decaying geometrically with depth. -/
def defaultScoringConfig : ScoringConfig := ⟨1/2⟩

/-- Modelled from the spec: normalization of an answer score to the unit
interval. -/
def clamp01 (q : ℚ) : ℚ := max 0 (min 1 q)

/-- Modelled from the spec: the normalized correctness value of a corrected
answer. -/
def scoreVal (a : Answer) : ℚ := clamp01 (a.score.getD 0)

/-- Modelled from the spec: only corrected submissions with answers carrying
a defined score may contribute to scoring. -/
def correctedAnswers (subs : List Submission) : List Answer :=
  ((subs.filter fun s => decide (s.status = SubmissionStatus.corrected)).flatMap
      Submission.answers).filter fun a => a.score.isSome

/-- Modelled from the spec: the answers tagged with a given topic id across
all corrected submissions. -/
def answersFor (subs : List Submission) (tid : String) : List Answer :=
  (correctedAnswers subs).filter fun a => decide (tid ∈ a.topics)

/-- Modelled from the spec: the topics whose parentId equals the given topic
id. -/
def childrenOf (topics : List Topic) (tid : String) : List Topic :=
  topics.filter fun t => decide (t.parentId = some tid)

/-- Modelled from the spec: the ids of descendants of a topic at exactly the
given depth of the parent tree overlay (depth zero being the topic itself);
the depth is bounded by the number of topics when used below. -/
def descIdsAt (topics : List Topic) : Nat → String → List String
  | 0, tid => [tid]
  | d+1, tid => (childrenOf topics tid).flatMap fun c => descIdsAt topics d c.id

/-- Modelled from the spec: number of evidence answers contributed at one
depth of the roll up. -/
def dCount (topics : List Topic) (subs : List Submission) (tid : String) (d : Nat) : Nat :=
  ((descIdsAt topics d tid).map fun uid => (answersFor subs uid).length).sum

/-- Modelled from the spec: summed normalized correctness of the evidence
answers contributed at one depth of the roll up. -/
def dVal (topics : List Topic) (subs : List Submission) (tid : String) (d : Nat) : ℚ :=
  ((descIdsAt topics d tid).map fun uid => ((answersFor subs uid).map scoreVal).sum).sum

/-- Modelled from the spec: the size of the evidence set of a topic, direct
answers plus answers rolled up from descendants. -/
def evCount (topics : List Topic) (subs : List Submission) (tid : String) : Nat :=
  ((List.range (topics.length + 1)).map (dCount topics subs tid)).sum

/-- Modelled from the spec: total weight of the evidence set, direct evidence
counting with weight one and depth d descendant evidence with weight decay to
the d. -/
def evW (topics : List Topic) (subs : List Submission) (decay : ℚ) (tid : String) : ℚ :=
  ((List.range (topics.length + 1)).map fun d =>
    decay ^ d * (dCount topics subs tid d : ℚ)).sum

/-- Modelled from the spec: weighted total correctness of the evidence
set. -/
def evWV (topics : List Topic) (subs : List Submission) (decay : ℚ) (tid : String) : ℚ :=
  ((List.range (topics.length + 1)).map fun d =>
    decay ^ d * dVal topics subs tid d).sum

/-- Modelled from the spec: the performance score of a topic is the weighted
mean of per answer correctness over its evidence set; a topic with an empty
evidence set receives no performance score. -/
def perfScore (topics : List Topic) (subs : List Submission) (decay : ℚ) (tid : String) :
    Option ℚ :=
  if evCount topics subs tid = 0 then none
  else some (evWV topics subs decay tid / evW topics subs decay tid)

/-- Modelled from the spec: the discipline score grows with the frequency of
corrected attempts on the topic and its descendants; a topic touched never or
only once scores low.  The exact constants are left open by the source, so
the attempt count n is mapped to n divided by n plus one. -/
def disciplineScoreOf (n : Nat) : ℚ := (n : ℚ) / ((n : ℚ) + 1)

/-- Modelled from the spec: confidence grows with evidence set size; the
exact constants are left open by the source, so the evidence count n is
mapped to n divided by n plus one. -/
def confidenceOf (n : Nat) : ℚ := (n : ℚ) / ((n : ℚ) + 1)

/-- Modelled from the spec: the prerequisite edge targets of a topic id, an
empty list when the id names no topic of the snapshot. -/
def depIds (topics : List Topic) (tid : String) : List String :=
  match topics.find? fun t => decide (t.id = tid) with
  | some t => t.dependencies
  | none => []

/-- Modelled from the spec: bounded reachability along dependency edges,
true when b is reachable from a in at least one and at most fuel steps. -/
def reachesIn (topics : List Topic) : Nat → String → String → Bool
  | 0, _, _ => false
  | d+1, a, b => (depIds topics a).any fun c => decide (c = b) || reachesIn topics d c b

/-- Modelled from the spec: the dependency cycle check rejected at graph
construction time; a cycle exists exactly when some topic reaches itself
along dependency edges, and a shortest such closed walk has at most as many
steps as there are topics. -/
def hasCycle (topics : List Topic) : Bool :=
  topics.any fun t => reachesIn topics topics.length t.id t.id

/-- The ids of the topics of a graph snapshot. -/
def topicIds (topics : List Topic) : List String := topics.map Topic.id

/-- Modelled from the spec: an answer referencing a topic id not present in
the topics list is a dangling reference. -/
def hasDanglingRef (topics : List Topic) (subs : List Submission) : Bool :=
  subs.any fun s => s.answers.any fun a => a.topics.any fun tid =>
    decide (tid ∉ topicIds topics)

/-- Modelled from the spec: scoring of one topic, preserving the topic
identity and hierarchy references and attaching the computed scores; the
userId is left for the caller to attach. -/
def scoreTopic (cfg : ScoringConfig) (topics : List Topic) (subs : List Submission)
    (now : Nat) (t : Topic) : ScoredTopic :=
  { id := t.id
    name := t.name
    description := t.description
    parentId := t.parentId
    dependencies := t.dependencies
    dependents := t.dependents
    userId := none
    performanceScore := perfScore topics subs cfg.decay t.id
    disciplineScore := disciplineScoreOf (evCount topics subs t.id)
    confidence := confidenceOf (evCount topics subs t.id)
    lastCalculatedAt := now }

/-- Modelled from the spec: the missing body of
IScoringStrategy.calculateScore (the source declares only the interface).
The topics list must be nonempty and acyclic, the submissions argument must
be present though it may be empty, a dangling topic reference is a
computation error, and otherwise one ScoredTopic per input Topic is
returned. -/
def calculateScore (cfg : ScoringConfig) (topics : List Topic)
    (subs? : Option (List Submission)) (now : Nat) : Except CoreError (List ScoredTopic) :=
  if topics.isEmpty then .error .InvalidInput
  else if hasCycle topics then .error .InvalidInput
  else
    match subs? with
    | none => .error .InvalidInput
    | some subs =>
      if hasDanglingRef topics subs then .error .ComputationError
      else .ok (topics.map (scoreTopic cfg topics subs now))

/-- Modelled from the spec: the threshold and confidence minimum of the weak
point policy. -/
structure DetectorConfig where
  threshold : ℚ
  minConfidence : ℚ
deriving DecidableEq

/-- Modelled from the spec: the default policy, threshold 0.6 and confidence
minimum 0.7. -/
def defaultDetectorConfig : DetectorConfig := ⟨3/5, 7/10⟩

/-- The topic snapshot carried by a scored topic. -/
def ScoredTopic.toTopic (st : ScoredTopic) : Topic :=
  { id := st.id
    name := st.name
    description := st.description
    parentId := st.parentId
    dependencies := st.dependencies
    dependents := st.dependents }

/-- Modelled from the spec: a topic is flagged when its performance score is
defined and below the threshold and the associated confidence meets the
configured minimum; unscored topics are never flagged. -/
def isFlagged (cfg : DetectorConfig) (st : ScoredTopic) : Bool :=
  match st.performanceScore with
  | none => false
  | some p => decide (p < cfg.threshold) && decide (cfg.minConfidence ≤ st.confidence)

/-- Modelled from the spec: the weak point emitted for a flagged scored
topic, with a freshly generated identifier, the originating user and topic,
the topic snapshot and the confidence copied from scoring. -/
def mkWeakpoint (now : Nat) (st : ScoredTopic) : Weakpoint :=
  { id := "wp-" ++ st.id ++ "-" ++ toString now
    userId := st.userId.getD ""
    topicId := st.id
    topic := some st.toTopic
    confidence := st.confidence
    createdAt := now
    updatedAt := now }

/-- Modelled from the spec: the missing body of
IWeakpointDetectorStrategy.detectWeakpoints (the source declares only the
interface).  An absent input list is invalid, a flagged scored topic missing
the required userId is a computation error, and otherwise one weak point per
flagged topic is emitted. -/
def detectWeakpoints (cfg : DetectorConfig) (input? : Option (List ScoredTopic))
    (now : Nat) : Except CoreError (List Weakpoint) :=
  match input? with
  | none => .error .InvalidInput
  | some sts =>
    if (sts.filter (isFlagged cfg)).any (fun st => st.userId.isNone) then
      .error .ComputationError
    else .ok ((sts.filter (isFlagged cfg)).map (mkWeakpoint now))

/-- A dependency edge between topic ids: b is among the declared
prerequisites of a. -/
def DepEdge (topics : List Topic) (a b : String) : Prop := b ∈ depIds topics a

/-- The graph of dependency edges contains a cycle: some id is reachable
from itself by a nonempty chain of dependency edges. -/
def HasDepCycle (topics : List Topic) : Prop :=
  ∃ a, Relation.TransGen (DepEdge topics) a a

/-- Configuration of the ElevioCore entry point, from the source. -/
structure ElevioConfig where
  version : String
  environment : String
deriving DecidableEq

/-- The ElevioCore entry point, from the source: it stores the configuration
passed to its constructor. -/
structure ElevioCore where
  config : ElevioConfig
deriving DecidableEq

/-- The ElevioCore constructor, from the source. -/
def ElevioCore.new (config : ElevioConfig) : ElevioCore := ⟨config⟩

/-- ElevioCore.getVersion, from the source: returns the configured version
string. -/
def ElevioCore.getVersion (e : ElevioCore) : String := e.config.version

/-- ElevioCore.getEnvironment, from the source: returns the configured
environment string. -/
def ElevioCore.getEnvironment (e : ElevioCore) : String := e.config.environment

/-- The initialize method of ElevioCore, from the source: it writes two log
lines to the console and changes no state; the explicit state passing
embedding returns the unchanged core together with the log output. -/
def ElevioCore.initCore (e : ElevioCore) : ElevioCore × List String :=
  (e, ["Elevio Core v" ++ e.config.version ++ " initializing...",
       "Environment: " ++ e.config.environment])

/-- Data source status enumeration, from the source. -/
inductive DataSourceStatus where
  | configuring
  | active
  | error
  | paused
  | down
deriving DecidableEq

/-- Synchronization frequency of a data source, from the source. -/
inductive SyncFrequency where
  | daily
  | hourly
deriving DecidableEq

/-- Configuration options of a data source, from the source; retryAttempts
and timeout are optional. -/
structure DataSourceConfig where
  syncFrequency : SyncFrequency
  retryAttempts : Option Nat
  timeout : Option Nat
deriving DecidableEq

/-- The abstract Datasource base class of the source, embedded as the record
of its seven public fields. -/
structure Datasource where
  id : String
  tenantId : String
  status : DataSourceStatus
  config : DataSourceConfig
  lastSyncAt : Option Nat
  createdAt : Nat
  updatedAt : Nat
deriving DecidableEq

/-- The Datasource constructor, from the source: a total function (the
constructor body is seven plain assignments, performs no validation and can
not throw) assigning each argument to the field of the same name. -/
def Datasource.make (id tenantId : String) (status : DataSourceStatus)
    (config : DataSourceConfig) (lastSyncAt : Option Nat)
    (createdAt updatedAt : Nat) : Datasource :=
  { id := id
    tenantId := tenantId
    status := status
    config := config
    lastSyncAt := lastSyncAt
    createdAt := createdAt
    updatedAt := updatedAt }

/-! Concrete sample data used by the witness theorems below. -/

/-- A root topic with no dependencies. -/
def tA : Topic :=
  { id := "A", name := "Algebra", description := none, parentId := none,
    dependencies := [], dependents := [] }

/-- A root topic with no dependencies, used for the monotonicity witness. -/
def tB : Topic :=
  { id := "B", name := "Bases", description := none, parentId := none,
    dependencies := [], dependents := [] }

/-- A topic whose dependency list contains itself, a one step cycle. -/
def tC : Topic :=
  { id := "C", name := "Cyclic", description := none, parentId := none,
    dependencies := ["C"], dependents := [] }

/-- A corrected answer for topic B with score one half. -/
def ansHalf : Answer :=
  { id := "a1", questionId := "q1", answerContent := "r1", score := some (1/2),
    topics := ["B"] }

/-- A fully correct corrected answer for topic B. -/
def ansFull : Answer :=
  { id := "a2", questionId := "q2", answerContent := "r2", score := some 1,
    topics := ["B"] }

/-- An uncorrected answer referencing a topic id absent from the graph. -/
def ansDangling : Answer :=
  { id := "a3", questionId := "q3", answerContent := "r3", score := none,
    topics := ["Z"] }

/-- A corrected submission carrying the half score answer for topic B. -/
def subHalf : Submission :=
  { id := "s1", userId := "u1", submittedAt := 10, status := .corrected,
    totalScore := none, answers := [ansHalf], topics := ["B"] }

/-- A corrected submission carrying the fully correct answer for topic B. -/
def subFull : Submission :=
  { id := "s2", userId := "u1", submittedAt := 20, status := .corrected,
    totalScore := none, answers := [ansFull], topics := ["B"] }

/-- A submission whose answer references a missing topic id. -/
def subDangling : Submission :=
  { id := "s3", userId := "u1", submittedAt := 30, status := .pending,
    totalScore := none, answers := [ansDangling], topics := [] }

/-- A scored topic below the default threshold with high confidence. -/
def stLow : ScoredTopic :=
  { id := "low", name := "Low", description := none, parentId := none,
    dependencies := [], dependents := [], userId := some "u1",
    performanceScore := some (1/2), disciplineScore := 1/2, confidence := 9/10,
    lastCalculatedAt := 0 }

/-- A scored topic at or above the default threshold with high confidence. -/
def stHigh : ScoredTopic :=
  { id := "high", name := "High", description := none, parentId := none,
    dependencies := [], dependents := [], userId := some "u1",
    performanceScore := some (4/5), disciplineScore := 1/2, confidence := 9/10,
    lastCalculatedAt := 0 }

/-- An unscored scored topic, its evidence set being empty. -/
def stNone : ScoredTopic :=
  { id := "none", name := "Unscored", description := none, parentId := none,
    dependencies := [], dependents := [], userId := some "u1",
    performanceScore := none, disciplineScore := 0, confidence := 0,
    lastCalculatedAt := 0 }

/-! Helper lemmas shared by the claim theorems. -/

/-- Success characterization of calculateScore on a present submissions
list. -/
theorem calculateScore_some_ok_iff (cfg : ScoringConfig) (topics : List Topic)
    (subs : List Submission) (now : Nat) (out : List ScoredTopic) :
    calculateScore cfg topics (some subs) now = .ok out ↔
      topics.isEmpty = false ∧ hasCycle topics = false ∧
      hasDanglingRef topics subs = false ∧
      out = topics.map (scoreTopic cfg topics subs now) := by
  unfold calculateScore
  cases hne : topics.isEmpty <;> cases hc : hasCycle topics <;>
    cases hd : hasDanglingRef topics subs <;> simp [hne, hc, hd, eq_comm]

/-- calculateScore never succeeds on an absent submissions argument. -/
theorem calculateScore_none_ne_ok (cfg : ScoringConfig) (topics : List Topic)
    (now : Nat) (out : List ScoredTopic) :
    calculateScore cfg topics none now ≠ .ok out := by
  unfold calculateScore
  cases hne : topics.isEmpty <;> cases hc : hasCycle topics <;> simp [hne, hc]

/-- Success characterization of detectWeakpoints on a present input list. -/
theorem detectWeakpoints_some_ok_iff (cfg : DetectorConfig) (sts : List ScoredTopic)
    (now : Nat) (out : List Weakpoint) :
    detectWeakpoints cfg (some sts) now = .ok out ↔
      ((sts.filter (isFlagged cfg)).any fun st => st.userId.isNone) = false ∧
      out = (sts.filter (isFlagged cfg)).map (mkWeakpoint now) := by
  unfold detectWeakpoints
  cases hg : (sts.filter (isFlagged cfg)).any fun st => st.userId.isNone <;>
    simp [hg, eq_comm]

/-- A nonempty list is not isEmpty. -/
theorem isEmpty_false_of_ne_nil {α : Type} {l : List α} (h : l ≠ []) :
    l.isEmpty = false := by
  cases l with
  | nil => exact absurd rfl h
  | cons a t => rfl

/-- With no submissions no depth contributes evidence. -/
theorem dCount_nil (topics : List Topic) (tid : String) (d : Nat) :
    dCount topics [] tid d = 0 := by
  simp [dCount, answersFor, correctedAnswers]

/-- With no submissions every evidence set is empty. -/
theorem evCount_nil (topics : List Topic) (tid : String) :
    evCount topics [] tid = 0 := by
  have h : dCount topics [] tid = fun _ => 0 := funext fun d => dCount_nil topics tid d
  simp [evCount, h]

/-- With no submissions every topic is unscored. -/
theorem perfScore_nil (topics : List Topic) (decay : ℚ) (tid : String) :
    perfScore topics [] decay tid = none := by
  simp [perfScore, evCount_nil]

/-! Evidence sum lemmas used for the monotonicity claim. -/

/-- Summing a pointwise sum of two functions over a list splits into two
sums. -/
theorem sum_map_addM {α M : Type} [AddCommMonoid M] (f g : α → M) (l : List α) :
    (l.map fun x => f x + g x).sum = (l.map f).sum + (l.map g).sum := by
  induction l with
  | nil => simp
  | cons a l ih =>
    simp only [List.map_cons, List.sum_cons, ih]
    exact add_add_add_comm _ _ _ _

/-- The evidence answers of an appended submissions list. -/
theorem answersFor_append (s1 s2 : List Submission) (tid : String) :
    answersFor (s1 ++ s2) tid = answersFor s1 tid ++ answersFor s2 tid := by
  simp [answersFor, correctedAnswers, List.filter_append, List.flatMap_append]

/-- Per depth evidence counts are additive in the submissions list. -/
theorem dCount_append (topics : List Topic) (s1 s2 : List Submission)
    (tid : String) (d : Nat) :
    dCount topics (s1 ++ s2) tid d = dCount topics s1 tid d + dCount topics s2 tid d := by
  unfold dCount
  simp only [answersFor_append, List.length_append, sum_map_addM]

/-- Per depth evidence values are additive in the submissions list. -/
theorem dVal_append (topics : List Topic) (s1 s2 : List Submission)
    (tid : String) (d : Nat) :
    dVal topics (s1 ++ s2) tid d = dVal topics s1 tid d + dVal topics s2 tid d := by
  unfold dVal
  simp only [answersFor_append, List.map_append, List.sum_append, sum_map_addM]

/-- Evidence set sizes are additive in the submissions list. -/
theorem evCount_append (topics : List Topic) (s1 s2 : List Submission) (tid : String) :
    evCount topics (s1 ++ s2) tid = evCount topics s1 tid + evCount topics s2 tid := by
  unfold evCount
  have h : dCount topics (s1 ++ s2) tid =
      fun d => dCount topics s1 tid d + dCount topics s2 tid d :=
    funext fun d => dCount_append topics s1 s2 tid d
  rw [h]
  simp only [sum_map_addM]

/-- Evidence weights are additive in the submissions list. -/
theorem evW_append (topics : List Topic) (s1 s2 : List Submission) (decay : ℚ)
    (tid : String) :
    evW topics (s1 ++ s2) decay tid =
      evW topics s1 decay tid + evW topics s2 decay tid := by
  unfold evW
  simp only [dCount_append, Nat.cast_add, mul_add, sum_map_addM]

/-- Weighted evidence values are additive in the submissions list. -/
theorem evWV_append (topics : List Topic) (s1 s2 : List Submission) (decay : ℚ)
    (tid : String) :
    evWV topics (s1 ++ s2) decay tid =
      evWV topics s1 decay tid + evWV topics s2 decay tid := by
  unfold evWV
  simp only [dVal_append, mul_add, sum_map_addM]

/-- The normalized correctness of an answer is nonnegative. -/
theorem scoreVal_nonneg (a : Answer) : 0 ≤ scoreVal a := le_max_left 0 _

/-- The normalized correctness of an answer is at most one. -/
theorem scoreVal_le_one (a : Answer) : scoreVal a ≤ 1 :=
  max_le (by norm_num) (min_le_left 1 _)

/-- Per depth evidence value is bounded by the per depth evidence count. -/
theorem dVal_le_dCount (topics : List Topic) (subs : List Submission)
    (tid : String) (d : Nat) :
    dVal topics subs tid d ≤ (dCount topics subs tid d : ℚ) := by
  unfold dVal dCount
  rw [Nat.cast_list_sum, List.map_map]
  apply List.sum_le_sum
  intro uid hmem
  simp only [Function.comp_apply]
  calc ((answersFor subs uid).map scoreVal).sum
      ≤ ((answersFor subs uid).map fun _ => (1:ℚ)).sum :=
        List.sum_le_sum fun a ha => scoreVal_le_one a
    _ = ((answersFor subs uid).length : ℚ) := by
        simp [List.map_const', List.sum_replicate, nsmul_eq_mul]

/-- Per depth evidence values are nonnegative. -/
theorem dVal_nonneg (topics : List Topic) (subs : List Submission)
    (tid : String) (d : Nat) : 0 ≤ dVal topics subs tid d := by
  unfold dVal
  apply List.sum_nonneg
  intro x hx
  obtain ⟨uid, -, rfl⟩ := List.mem_map.mp hx
  apply List.sum_nonneg
  intro y hy
  obtain ⟨a, -, rfl⟩ := List.mem_map.mp hy
  exact scoreVal_nonneg a

/-- The weighted evidence value never exceeds the evidence weight. -/
theorem evWV_le_evW (topics : List Topic) (subs : List Submission) (decay : ℚ)
    (tid : String) (hd : 0 ≤ decay) :
    evWV topics subs decay tid ≤ evW topics subs decay tid := by
  unfold evWV evW
  apply List.sum_le_sum
  intro d hd2
  exact mul_le_mul_of_nonneg_left (dVal_le_dCount topics subs tid d) (pow_nonneg hd d)

/-- The evidence weight is nonnegative. -/
theorem evW_nonneg (topics : List Topic) (subs : List Submission) (decay : ℚ)
    (tid : String) (hd : 0 ≤ decay) : 0 ≤ evW topics subs decay tid := by
  unfold evW
  apply List.sum_nonneg
  intro x hx
  obtain ⟨d, -, rfl⟩ := List.mem_map.mp hx
  exact mul_nonneg (pow_nonneg hd d) (Nat.cast_nonneg _)

/-- On a nonempty evidence set the evidence weight is positive. -/
theorem evW_pos (topics : List Topic) (subs : List Submission) (decay : ℚ)
    (tid : String) (hd : 0 < decay) (hc : evCount topics subs tid ≠ 0) :
    0 < evW topics subs decay tid := by
  have hex : ∃ d0 ∈ List.range (topics.length + 1), dCount topics subs tid d0 ≠ 0 := by
    by_contra hall
    push_neg at hall
    apply hc
    unfold evCount
    apply List.sum_eq_zero
    intro x hx
    obtain ⟨d0, hd0, rfl⟩ := List.mem_map.mp hx
    exact hall d0 hd0
  obtain ⟨d0, hd0m, hd0⟩ := hex
  unfold evW
  have hmem : decay ^ d0 * (dCount topics subs tid d0 : ℚ) ∈
      (List.range (topics.length + 1)).map fun d =>
        decay ^ d * (dCount topics subs tid d : ℚ) :=
    List.mem_map_of_mem _ hd0m
  have hterm : 0 < decay ^ d0 * (dCount topics subs tid d0 : ℚ) := by
    apply mul_pos (pow_pos hd d0)
    exact_mod_cast Nat.pos_of_ne_zero hd0
  have hsum := List.single_le_sum (l := (List.range (topics.length + 1)).map fun d =>
      decay ^ d * (dCount topics subs tid d : ℚ)) ?_ _ hmem
  · exact lt_of_lt_of_le hterm hsum
  · intro x hx
    obtain ⟨d, -, rfl⟩ := List.mem_map.mp hx
    exact mul_nonneg (pow_nonneg hd.le d) (Nat.cast_nonneg _)

/-- The corrected evidence of a single corrected submission with one scored
answer is that answer. -/
theorem correctedAnswers_single (s : Submission) (ans : Answer)
    (hs : s.status = SubmissionStatus.corrected) (hans : s.answers = [ans])
    (hsc : ans.score.isSome = true) :
    correctedAnswers [s] = [ans] := by
  unfold correctedAnswers
  simp [hs, hans, hsc]

/-- A fully correct answer has normalized correctness one. -/
theorem scoreVal_of_full (ans : Answer) (sc : ℚ) (hsc : ans.score = some sc)
    (h1 : 1 ≤ sc) : scoreVal ans = 1 := by
  unfold scoreVal clamp01
  rw [hsc, Option.getD_some, min_eq_left h1, max_eq_right zero_le_one]

/-- For a single fully correct submission the per depth value equals the per
depth count. -/
theorem dVal_eq_dCount_single (topics : List Topic) (s : Submission) (ans : Answer)
    (sc : ℚ) (hs : s.status = SubmissionStatus.corrected) (hans : s.answers = [ans])
    (hsc : ans.score = some sc) (h1 : 1 ≤ sc) (tid : String) (d : Nat) :
    dVal topics [s] tid d = (dCount topics [s] tid d : ℚ) := by
  have hca : correctedAnswers [s] = [ans] :=
    correctedAnswers_single s ans hs hans (by rw [hsc]; rfl)
  have hval : scoreVal ans = 1 := scoreVal_of_full ans sc hsc h1
  unfold dVal dCount
  rw [Nat.cast_list_sum, List.map_map]
  congr 1
  apply List.map_congr_left
  intro uid hmem
  simp only [Function.comp_apply]
  unfold answersFor
  rw [hca]
  by_cases hin : uid ∈ ans.topics
  · simp [hin, hval]
  · simp [hin]

/-- For a single fully correct submission the weighted value equals the
weight. -/
theorem evWV_eq_evW_single (topics : List Topic) (s : Submission) (ans : Answer)
    (sc : ℚ) (decay : ℚ) (hs : s.status = SubmissionStatus.corrected)
    (hans : s.answers = [ans]) (hsc : ans.score = some sc) (h1 : 1 ≤ sc)
    (tid : String) :
    evWV topics [s] decay tid = evW topics [s] decay tid := by
  unfold evWV evW
  apply congrArg List.sum
  apply List.map_congr_left
  intro d hd
  rw [dVal_eq_dCount_single topics s ans sc hs hans hsc h1 tid d]

/-- A single corrected submission with a scored answer tagged with the topic
contributes at least one piece of evidence to it. -/
theorem evCount_single_ne_zero (topics : List Topic) (s : Submission) (ans : Answer)
    (hs : s.status = SubmissionStatus.corrected) (hans : s.answers = [ans])
    (hsc : ans.score.isSome = true) (tid : String) (hat : tid ∈ ans.topics) :
    evCount topics [s] tid ≠ 0 := by
  have hca : correctedAnswers [s] = [ans] := correctedAnswers_single s ans hs hans hsc
  have h0 : dCount topics [s] tid 0 ≠ 0 := by
    unfold dCount
    simp [descIdsAt, answersFor, hca, hat]
  intro hev
  apply h0
  unfold evCount at hev
  rw [List.sum_eq_zero_iff] at hev
  apply hev
  apply List.mem_map_of_mem
  simp

/-- The value and denominator behind a defined performance score. -/
theorem perfScore_some (topics : List Topic) (subs : List Submission)
    (decay : ℚ) (tid : String) (p : ℚ)
    (hp : perfScore topics subs decay tid = some p) :
    evCount topics subs tid ≠ 0 ∧
    p = evWV topics subs decay tid / evW topics subs decay tid := by
  unfold perfScore at hp
  by_cases hc : evCount topics subs tid = 0
  · rw [if_pos hc] at hp
    exact absurd hp (by simp)
  · rw [if_neg hc] at hp
    exact ⟨hc, (Option.some_inj.mp hp).symm⟩

/-- Core monotonicity: appending one fully correct corrected answer for a
topic never decreases its performance score. -/
theorem perfScore_monotone_single (topics : List Topic) (subs : List Submission)
    (s : Submission) (ans : Answer) (sc : ℚ) (tid : String) (decay : ℚ)
    (hdec : 0 < decay)
    (hs : s.status = SubmissionStatus.corrected) (hans : s.answers = [ans])
    (hsc : ans.score = some sc) (hsc1 : 1 ≤ sc) (hat : tid ∈ ans.topics)
    (p p2 : ℚ)
    (hp : perfScore topics subs decay tid = some p)
    (hp2 : perfScore topics (subs ++ [s]) decay tid = some p2) :
    p ≤ p2 := by
  obtain ⟨hc, hpeq⟩ := perfScore_some topics subs decay tid p hp
  obtain ⟨hc2, hp2eq⟩ := perfScore_some topics (subs ++ [s]) decay tid p2 hp2
  subst hpeq
  subst hp2eq
  have hWpos : 0 < evW topics subs decay tid := evW_pos topics subs decay tid hdec hc
  have happw : evW topics (subs ++ [s]) decay tid =
      evW topics subs decay tid + evW topics [s] decay tid :=
    evW_append topics subs [s] decay tid
  have happv : evWV topics (subs ++ [s]) decay tid =
      evWV topics subs decay tid + evWV topics [s] decay tid :=
    evWV_append topics subs [s] decay tid
  have hdv : evWV topics [s] decay tid = evW topics [s] decay tid :=
    evWV_eq_evW_single topics s ans sc decay hs hans hsc hsc1 tid
  have hdw0 : 0 ≤ evW topics [s] decay tid := evW_nonneg topics [s] decay tid hdec.le
  have hVW : evWV topics subs decay tid ≤ evW topics subs decay tid :=
    evWV_le_evW topics subs decay tid hdec.le
  rw [happw, happv, hdv]
  rw [div_le_div_iff₀ hWpos (by linarith)]
  have hcross := mul_le_mul_of_nonneg_right hVW hdw0
  nlinarith [hcross]

/-! Graph walk lemmas: a dependency cycle in the abstract sense (a nonempty
chain of dependency edges from some id back to itself) is detected by the
bounded reachability check of hasCycle. -/

/-- The source of a dependency edge is the id of some topic of the
snapshot. -/
theorem DepEdge_mem {topics : List Topic} {a b : String} (h : DepEdge topics a b) :
    a ∈ topicIds topics := by
  unfold DepEdge depIds at h
  cases hf : topics.find? fun t => decide (t.id = a) with
  | none => rw [hf] at h; exact absurd h (List.not_mem_nil b)
  | some t =>
    rw [hf] at h
    have h1 := List.find?_some hf
    have h2 : t ∈ topics := List.mem_of_find?_eq_some hf
    rw [decide_eq_true_eq] at h1
    rw [← h1]
    exact List.mem_map_of_mem Topic.id h2

/-- Every vertex of a chain except the last one has an outgoing edge. -/
theorem chain_out_edges {R : String → String → Prop} :
    ∀ (xs : List String) (z : String), List.Chain' R (xs ++ [z]) →
      ∀ x ∈ xs, ∃ y, R x y := by
  intro xs
  induction xs with
  | nil =>
    intro z h x hx
    exact absurd hx (List.not_mem_nil x)
  | cons u xs ih =>
    intro z h x hx
    rw [List.cons_append, List.chain'_cons'] at h
    obtain ⟨hhead, htail⟩ := h
    rcases List.mem_cons.mp hx with rfl | hx2
    · cases xs with
      | nil => exact ⟨z, hhead z rfl⟩
      | cons w ws => exact ⟨w, hhead w rfl⟩
    · exact ih z htail x hx2

/-- A duplicate free list of members of another list is no longer than
it. -/
theorem nodup_length_le {l ids : List String} (hn : l.Nodup)
    (hsub : ∀ x ∈ l, x ∈ ids) : l.length ≤ ids.length := by
  calc l.length = l.toFinset.card := (List.toFinset_card_of_nodup hn).symm
    _ ≤ ids.toFinset.card := Finset.card_le_card fun x hx => by
        rw [List.mem_toFinset] at hx ⊢
        exact hsub x hx
    _ ≤ ids.length := ids.toFinset_card_le

/-- A list with a repetition splits around the repeated element. -/
theorem not_nodup_split {l : List String} (h : ¬ l.Nodup) :
    ∃ p x m s, l = p ++ x :: m ++ x :: s := by
  induction l with
  | nil => exact absurd List.nodup_nil h
  | cons a l ih =>
    by_cases hm : a ∈ l
    · obtain ⟨m, s, rfl⟩ := List.append_of_mem hm
      exact ⟨[], a, m, s, rfl⟩
    · have hl : ¬ l.Nodup := fun hl => h (List.nodup_cons.mpr ⟨hm, hl⟩)
      obtain ⟨p, x, m, s, rfl⟩ := ih hl
      exact ⟨a :: p, x, m, s, rfl⟩

/-- Cutting a repetition out of a dependency walk: every walk with at least
one edge contains a walk with the same endpoints and at most one more vertex
than there are topics. -/
theorem walk_shorten (topics : List Topic) :
    ∀ (n : Nat) (v : List String), v.length ≤ n →
      List.Chain' (DepEdge topics) v → 2 ≤ v.length →
      ∃ v2, List.Chain' (DepEdge topics) v2 ∧ 2 ≤ v2.length ∧
        v2.length ≤ topics.length + 1 ∧ v2.head? = v.head? ∧
        v2.getLast? = v.getLast? := by
  intro n
  induction n with
  | zero =>
    intro v hlen hch h2
    omega
  | succ n ih =>
    intro v hlen hch h2
    by_cases hsmall : v.length ≤ topics.length + 1
    · exact ⟨v, hch, h2, hsmall, rfl, rfl⟩
    · push_neg at hsmall
      have hvne : v ≠ [] := by
        intro h0
        rw [h0] at h2
        simp at h2
      obtain ⟨z, hsplit⟩ : ∃ z, v.dropLast ++ [z] = v :=
        ⟨v.getLast hvne, List.dropLast_append_getLast hvne⟩
      have hout : ∀ x ∈ v.dropLast, ∃ y, DepEdge topics x y := by
        intro x hx
        apply chain_out_edges v.dropLast z _ x hx
        rw [hsplit]
        exact hch
      have hmem : ∀ x ∈ v.dropLast, x ∈ topicIds topics := by
        intro x hx
        obtain ⟨y, hy⟩ := hout x hx
        exact DepEdge_mem hy
      have hdllen : v.dropLast.length = v.length - 1 := List.length_dropLast v
      have hidlen : (topicIds topics).length = topics.length := List.length_map topics Topic.id
      have hnd : ¬ v.dropLast.Nodup := by
        intro hnd
        have hle := nodup_length_le hnd hmem
        omega
      obtain ⟨p, x, m, s, hsp⟩ := not_nodup_split hnd
      have hv : v = p ++ ((x :: m) ++ (x :: (s ++ [z]))) := by
        conv_lhs => rw [← hsplit]
        rw [hsp]
        simp
      have hch2 : List.Chain' (DepEdge topics) (p ++ (x :: (s ++ [z]))) := by
        have hch1 := hch
        rw [hv, List.chain'_append] at hch1
        obtain ⟨hA, hBC, hglue1⟩ := hch1
        rw [List.chain'_append] at hBC
        obtain ⟨hB, hC, hglue2⟩ := hBC
        rw [List.chain'_append]
        refine ⟨hA, hC, ?_⟩
        intro q hq y hy
        rw [List.head?_cons, Option.mem_some_iff] at hy
        subst hy
        exact hglue1 q hq x rfl
      have hvlen : v.length = p.length + m.length + s.length + 3 := by
        rw [hv]
        simp
        omega
      have hlen2 : (p ++ (x :: (s ++ [z]))).length ≤ n := by
        simp only [List.length_append, List.length_cons, List.length_nil]
        omega
      have h22 : 2 ≤ (p ++ (x :: (s ++ [z]))).length := by
        simp only [List.length_append, List.length_cons, List.length_nil]
        omega
      obtain ⟨v3, hch3, h23, hb3, hh3, hl3⟩ :=
        ih (p ++ (x :: (s ++ [z]))) hlen2 hch2 h22
      refine ⟨v3, hch3, h23, hb3, ?_, ?_⟩
      · rw [hh3, hv]
        cases p with
        | nil => rfl
        | cons q qs => rfl
      · rw [hl3, hv]
        have e1 : p ++ (x :: (s ++ [z])) = (p ++ (x :: s)) ++ [z] := by simp
        have e2 : p ++ ((x :: m) ++ (x :: (s ++ [z]))) =
            (p ++ ((x :: m) ++ (x :: s))) ++ [z] := by simp
        rw [e1, e2, List.getLast?_concat, List.getLast?_concat]

/-- Unfolding equation of the bounded reachability check at positive
fuel. -/
theorem reachesIn_succ (topics : List Topic) (f : Nat) (a b : String) :
    reachesIn topics (f+1) a b =
      (depIds topics a).any fun c => decide (c = b) || reachesIn topics f c b := rfl

/-- A walk of bounded length is found by the bounded reachability check. -/
theorem reachesIn_of_walk (topics : List Topic) :
    ∀ (fuel : Nat) (v : List String) (a b : String),
      List.Chain' (DepEdge topics) v → v.head? = some a → v.getLast? = some b →
      2 ≤ v.length → v.length ≤ fuel + 1 → reachesIn topics fuel a b = true := by
  intro fuel
  induction fuel with
  | zero =>
    intro v a b hch hh hl h2 hf
    omega
  | succ f ih =>
    intro v a b hch hh hl h2 hf
    cases v with
    | nil => simp at hh
    | cons a0 v1 =>
      rw [List.head?_cons, Option.some_inj] at hh
      cases v1 with
      | nil => simp at h2
      | cons c rest =>
        rw [List.chain'_cons] at hch
        obtain ⟨hedge, hch2⟩ := hch
        rw [← hh, reachesIn_succ, List.any_eq_true]
        cases rest with
        | nil =>
          rw [List.getLast?_cons_cons, List.getLast?_singleton, Option.some_inj] at hl
          rw [hl] at hedge
          exact ⟨b, hedge, by simp⟩
        | cons w rest2 =>
          refine ⟨c, hedge, ?_⟩
          have hr : reachesIn topics f c b = true := by
            apply ih (c :: w :: rest2) c b hch2 rfl _ (by simp) _
            · rw [List.getLast?_cons_cons] at hl
              exact hl
            · simp at hf ⊢
              omega
          rw [hr]
          simp

/-- A dependency cycle is detected by hasCycle. -/
theorem hasCycle_of_HasDepCycle {topics : List Topic} (h : HasDepCycle topics) :
    hasCycle topics = true := by
  obtain ⟨a, htg⟩ := h
  obtain ⟨c, hac, hca⟩ := Relation.TransGen.head'_iff.mp htg
  obtain ⟨l, hchain, hlast⟩ := List.exists_chain_of_relationReflTransGen hca
  have hch : List.Chain' (DepEdge topics) (a :: c :: l) := by
    rw [List.chain'_cons]
    refine ⟨hac, ?_⟩
    clear hac hlast htg hca
    induction hchain with
    | nil => exact List.chain'_singleton _
    | @cons b d l2 hbd hdl ih => exact List.chain'_cons.mpr ⟨hbd, ih⟩
  have hlast2 : (a :: c :: l).getLast? = some a := by
    rw [List.getLast?_cons_cons, List.getLast?_eq_getLast (c :: l) (List.cons_ne_nil c l)]
    rw [hlast]
  obtain ⟨v2, hch2, h22, hb2, hh2, hl2⟩ :=
    walk_shorten topics (a :: c :: l).length (a :: c :: l) le_rfl hch (by simp)
  have hreach : reachesIn topics topics.length a a = true := by
    apply reachesIn_of_walk topics topics.length v2 a a hch2 _ _ h22 _
    · rw [hh2, List.head?_cons]
    · rw [hl2, hlast2]
    · omega
  obtain ⟨t, ht, hta⟩ := List.mem_map.mp (DepEdge_mem hac)
  unfold hasCycle
  rw [List.any_eq_true]
  exact ⟨t, ht, by rw [hta]; exact hreach⟩

/-! Claim theorems. -/

/-- Claim C2: on every successful run, calculateScore returns exactly one
ScoredTopic per input Topic, in order, and each output ScoredTopic preserves
the id, parentId and the dependency and dependent reference fields of its
input Topic unchanged. -/
theorem calculateScore_one_scored_topic_per_topic (cfg : ScoringConfig)
    (topics : List Topic) (subs : List Submission) (now : Nat)
    (out : List ScoredTopic)
    (h : calculateScore cfg topics (some subs) now = .ok out) :
    out.length = topics.length ∧
    out.map ScoredTopic.id = topics.map Topic.id ∧
    out.map ScoredTopic.parentId = topics.map Topic.parentId ∧
    out.map ScoredTopic.dependencies = topics.map Topic.dependencies ∧
    out.map ScoredTopic.dependents = topics.map Topic.dependents := by
  obtain ⟨-, -, -, hout⟩ := (calculateScore_some_ok_iff cfg topics subs now out).mp h
  subst hout
  refine ⟨by simp, ?_, ?_, ?_, ?_⟩ <;> (simp only [List.map_map]; rfl)

/-- Witness for claim C2 at a concrete input: a one topic graph and an empty
submissions list. -/
theorem calculateScore_one_scored_topic_per_topic_witness :
    calculateScore defaultScoringConfig [tA] (some []) 0 =
        .ok [scoreTopic defaultScoringConfig [tA] [] 0 tA] ∧
    ([scoreTopic defaultScoringConfig [tA] [] 0 tA].length = [tA].length ∧
     [scoreTopic defaultScoringConfig [tA] [] 0 tA].map ScoredTopic.id = [tA].map Topic.id ∧
     [scoreTopic defaultScoringConfig [tA] [] 0 tA].map ScoredTopic.parentId =
        [tA].map Topic.parentId ∧
     [scoreTopic defaultScoringConfig [tA] [] 0 tA].map ScoredTopic.dependencies =
        [tA].map Topic.dependencies ∧
     [scoreTopic defaultScoringConfig [tA] [] 0 tA].map ScoredTopic.dependents =
        [tA].map Topic.dependents) :=
  ⟨rfl, calculateScore_one_scored_topic_per_topic defaultScoringConfig [tA] [] 0
    [scoreTopic defaultScoringConfig [tA] [] 0 tA] rfl⟩

/-- Claim C5: calculateScore is deterministic; two successful runs on
identical topics and identical submissions, differing only in the run
timestamp, produce identical performance and discipline scores for every
topic. -/
theorem calculateScore_deterministic (cfg : ScoringConfig) (topics : List Topic)
    (subs? : Option (List Submission)) (now1 now2 : Nat)
    (out1 out2 : List ScoredTopic)
    (h1 : calculateScore cfg topics subs? now1 = .ok out1)
    (h2 : calculateScore cfg topics subs? now2 = .ok out2) :
    out1.map ScoredTopic.performanceScore = out2.map ScoredTopic.performanceScore ∧
    out1.map ScoredTopic.disciplineScore = out2.map ScoredTopic.disciplineScore := by
  cases subs? with
  | none => exact absurd h1 (calculateScore_none_ne_ok cfg topics now1 out1)
  | some subs =>
    obtain ⟨-, -, -, hout1⟩ := (calculateScore_some_ok_iff cfg topics subs now1 out1).mp h1
    obtain ⟨-, -, -, hout2⟩ := (calculateScore_some_ok_iff cfg topics subs now2 out2).mp h2
    subst hout1
    subst hout2
    constructor <;> (simp only [List.map_map]; rfl)

/-- Witness for claim C5 at a concrete input: the same one topic graph and
submissions scored at two different timestamps. -/
theorem calculateScore_deterministic_witness :
    calculateScore defaultScoringConfig [tB] (some [subHalf]) 0 =
        .ok [scoreTopic defaultScoringConfig [tB] [subHalf] 0 tB] ∧
    calculateScore defaultScoringConfig [tB] (some [subHalf]) 7 =
        .ok [scoreTopic defaultScoringConfig [tB] [subHalf] 7 tB] ∧
    ([scoreTopic defaultScoringConfig [tB] [subHalf] 0 tB].map ScoredTopic.performanceScore =
        [scoreTopic defaultScoringConfig [tB] [subHalf] 7 tB].map ScoredTopic.performanceScore ∧
     [scoreTopic defaultScoringConfig [tB] [subHalf] 0 tB].map ScoredTopic.disciplineScore =
        [scoreTopic defaultScoringConfig [tB] [subHalf] 7 tB].map ScoredTopic.disciplineScore) :=
  ⟨rfl, rfl, calculateScore_deterministic defaultScoringConfig [tB] (some [subHalf]) 0 7
    [scoreTopic defaultScoringConfig [tB] [subHalf] 0 tB]
    [scoreTopic defaultScoringConfig [tB] [subHalf] 7 tB] rfl rfl⟩

/-- Claim C7: calculateScore fails with InvalidInput on an empty topics list
and on an absent submissions argument, while an empty submissions list on an
otherwise valid graph is accepted. -/
theorem calculateScore_input_validation (cfg : ScoringConfig) (topics : List Topic)
    (subs? : Option (List Submission)) (now : Nat)
    (hne : topics ≠ []) (hnc : hasCycle topics = false) :
    calculateScore cfg [] subs? now = .error .InvalidInput ∧
    calculateScore cfg topics none now = .error .InvalidInput ∧
    ∃ out, calculateScore cfg topics (some []) now = .ok out := by
  refine ⟨by simp [calculateScore], ?_, ?_⟩
  · unfold calculateScore
    simp [isEmpty_false_of_ne_nil hne, hnc]
  · exact ⟨topics.map (scoreTopic cfg topics [] now),
      (calculateScore_some_ok_iff cfg topics [] now _).mpr
        ⟨isEmpty_false_of_ne_nil hne, hnc, rfl, rfl⟩⟩

/-- Witness for claim C7 at a concrete input: a nonempty acyclic one topic
graph. -/
theorem calculateScore_input_validation_witness :
    ([tA] ≠ [] ∧ hasCycle [tA] = false) ∧
    (calculateScore defaultScoringConfig [] (some []) 0 = .error .InvalidInput ∧
     calculateScore defaultScoringConfig [tA] none 0 = .error .InvalidInput ∧
     ∃ out, calculateScore defaultScoringConfig [tA] (some []) 0 = .ok out) :=
  ⟨⟨by decide, by decide⟩,
    calculateScore_input_validation defaultScoringConfig [tA] (some []) 0
      (by decide) (by decide)⟩

/-- Claim C8: when some answer of the submissions references a topic id not
present in the topics list, calculateScore on an otherwise valid graph fails
with ComputationError and returns no partial result. -/
theorem calculateScore_dangling_reference (cfg : ScoringConfig) (topics : List Topic)
    (subs : List Submission) (now : Nat)
    (hne : topics ≠ []) (hnc : hasCycle topics = false)
    (hd : ∃ s ∈ subs, ∃ a ∈ s.answers, ∃ tid ∈ a.topics, tid ∉ topicIds topics) :
    calculateScore cfg topics (some subs) now = .error .ComputationError := by
  have hb : hasDanglingRef topics subs = true := by
    simp only [hasDanglingRef, List.any_eq_true, decide_eq_true_eq]
    exact hd
  unfold calculateScore
  simp [isEmpty_false_of_ne_nil hne, hnc, hb]

/-- Witness for claim C8 at a concrete input: a submission whose answer is
tagged with a topic id missing from the graph. -/
theorem calculateScore_dangling_reference_witness :
    ([tA] ≠ [] ∧ hasCycle [tA] = false ∧
     (∃ s ∈ [subDangling], ∃ a ∈ s.answers, ∃ tid ∈ a.topics,
        tid ∉ topicIds [tA])) ∧
    calculateScore defaultScoringConfig [tA] (some [subDangling]) 0 =
        .error .ComputationError := by
  have hd : ∃ s ∈ [subDangling], ∃ a ∈ s.answers, ∃ tid ∈ a.topics,
      tid ∉ topicIds [tA] := by
    refine ⟨subDangling, by simp, ansDangling, by simp [subDangling], "Z",
      by simp [ansDangling], by decide⟩
  exact ⟨⟨by decide, by decide, hd⟩,
    calculateScore_dangling_reference defaultScoringConfig [tA] [subDangling] 0
      (by decide) (by decide) hd⟩

/-- Claim C1: on every successful detector run over scored topics with
distinct ids, every scored topic whose performance score is defined and
strictly below the configured threshold and whose confidence is at least the
configured minimum has a corresponding weak point in the output, and no
scored topic whose performance score is at or above the threshold has a weak
point emitted for it. -/
theorem detectWeakpoints_policy (cfg : DetectorConfig) (sts : List ScoredTopic)
    (now : Nat) (out : List Weakpoint)
    (hn : (sts.map ScoredTopic.id).Nodup)
    (h : detectWeakpoints cfg (some sts) now = .ok out) :
    (∀ st ∈ sts, ∀ p, st.performanceScore = some p → p < cfg.threshold →
        cfg.minConfidence ≤ st.confidence → ∃ wp ∈ out, wp.topicId = st.id) ∧
    (∀ st ∈ sts, ∀ p, st.performanceScore = some p → cfg.threshold ≤ p →
        ∀ wp ∈ out, wp.topicId ≠ st.id) := by
  obtain ⟨-, hout⟩ := (detectWeakpoints_some_ok_iff cfg sts now out).mp h
  subst hout
  constructor
  · intro st hst p hp hlt hconf
    refine ⟨mkWeakpoint now st, List.mem_map_of_mem _ ?_, rfl⟩
    refine List.mem_filter.mpr ⟨hst, ?_⟩
    simp [isFlagged, hp, hlt, hconf]
  · intro st hst p hp hge wp hwp
    obtain ⟨st2, hst2f, hwpeq⟩ := List.mem_map.mp hwp
    obtain ⟨hst2, hflag⟩ := List.mem_filter.mp hst2f
    subst hwpeq
    intro heq
    have hsame : st2 = st := List.inj_on_of_nodup_map hn hst2 hst heq
    subst hsame
    simp only [isFlagged, hp, Bool.and_eq_true, decide_eq_true_eq] at hflag
    exact absurd hflag.1 (not_lt.mpr hge)

/-- Witness for claim C1 at a concrete input: one scored topic below the
threshold with sufficient confidence and one at or above it. -/
theorem detectWeakpoints_policy_witness :
    (([stLow, stHigh].map ScoredTopic.id).Nodup ∧
     detectWeakpoints defaultDetectorConfig (some [stLow, stHigh]) 0 =
        .ok [mkWeakpoint 0 stLow]) ∧
    ((∀ st ∈ [stLow, stHigh], ∀ p, st.performanceScore = some p →
        p < defaultDetectorConfig.threshold →
        defaultDetectorConfig.minConfidence ≤ st.confidence →
        ∃ wp ∈ [mkWeakpoint 0 stLow], wp.topicId = st.id) ∧
     (∀ st ∈ [stLow, stHigh], ∀ p, st.performanceScore = some p →
        defaultDetectorConfig.threshold ≤ p →
        ∀ wp ∈ [mkWeakpoint 0 stLow], wp.topicId ≠ st.id)) := by
  have hn : ([stLow, stHigh].map ScoredTopic.id).Nodup := by decide
  have h1 : isFlagged defaultDetectorConfig stLow = true := by
    simp [isFlagged, stLow, defaultDetectorConfig]
    norm_num
  have h2 : isFlagged defaultDetectorConfig stHigh = false := by
    simp [isFlagged, stHigh, defaultDetectorConfig]
    norm_num
  have hdet : detectWeakpoints defaultDetectorConfig (some [stLow, stHigh]) 0 =
      .ok [mkWeakpoint 0 stLow] := by
    rw [detectWeakpoints_some_ok_iff]
    constructor
    · simp [List.filter_cons, h1, h2, stLow]
    · simp [List.filter_cons, h1, h2]
  exact ⟨⟨hn, hdet⟩, detectWeakpoints_policy defaultDetectorConfig [stLow, stHigh] 0
    [mkWeakpoint 0 stLow] hn hdet⟩

/-- Claim C4: an unscored scored topic never has a weak point emitted for it
on any successful detector run over scored topics with distinct ids; in
particular, scoring a nonempty acyclic topics list against an empty
submissions list yields only unscored topics, on which the detector returns
the empty list. -/
theorem unscored_topics_never_flagged (dcfg : DetectorConfig) (cfg : ScoringConfig)
    (topics : List Topic) (sts : List ScoredTopic) (out : List Weakpoint)
    (now now2 : Nat)
    (hn : (sts.map ScoredTopic.id).Nodup)
    (hdet : detectWeakpoints dcfg (some sts) now2 = .ok out)
    (hne : topics ≠ []) (hnc : hasCycle topics = false) :
    (∀ st ∈ sts, st.performanceScore = none → ∀ wp ∈ out, wp.topicId ≠ st.id) ∧
    (∃ scored, calculateScore cfg topics (some []) now = .ok scored ∧
      (∀ st ∈ scored, st.performanceScore = none) ∧
      detectWeakpoints dcfg (some scored) now2 = .ok []) := by
  constructor
  · obtain ⟨-, hout⟩ := (detectWeakpoints_some_ok_iff dcfg sts now2 out).mp hdet
    subst hout
    intro st hst hnone wp hwp
    obtain ⟨st2, hst2f, hwpeq⟩ := List.mem_map.mp hwp
    obtain ⟨hst2, hflag⟩ := List.mem_filter.mp hst2f
    subst hwpeq
    intro heq
    have hsame : st2 = st := List.inj_on_of_nodup_map hn hst2 hst heq
    subst hsame
    simp only [isFlagged, hnone] at hflag
    exact Bool.false_ne_true hflag
  · have hfilter : (topics.map (scoreTopic cfg topics [] now)).filter (isFlagged dcfg)
        = [] := by
      apply List.filter_eq_nil_iff.mpr
      intro st hstm
      obtain ⟨t, htm, hteq⟩ := List.mem_map.mp hstm
      subst hteq
      simp [isFlagged, scoreTopic, perfScore_nil]
    refine ⟨topics.map (scoreTopic cfg topics [] now),
      (calculateScore_some_ok_iff cfg topics [] now _).mpr
        ⟨isEmpty_false_of_ne_nil hne, hnc, rfl, rfl⟩, ?_, ?_⟩
    · intro st hstm
      obtain ⟨t, htm, hteq⟩ := List.mem_map.mp hstm
      subst hteq
      simp [scoreTopic, perfScore_nil]
    · rw [detectWeakpoints_some_ok_iff]
      exact ⟨by simp [hfilter], by simp [hfilter]⟩

/-- Witness for claim C4 at a concrete input: one unscored scored topic and
the one topic graph scored against no submissions. -/
theorem unscored_topics_never_flagged_witness :
    (([stNone].map ScoredTopic.id).Nodup ∧
     detectWeakpoints defaultDetectorConfig (some [stNone]) 5 = .ok [] ∧
     [tA] ≠ [] ∧ hasCycle [tA] = false) ∧
    ((∀ st ∈ [stNone], st.performanceScore = none →
        ∀ wp ∈ ([] : List Weakpoint), wp.topicId ≠ st.id) ∧
     (∃ scored, calculateScore defaultScoringConfig [tA] (some []) 3 = .ok scored ∧
       (∀ st ∈ scored, st.performanceScore = none) ∧
       detectWeakpoints defaultDetectorConfig (some scored) 5 = .ok [])) :=
  ⟨⟨by decide, rfl, by decide, by decide⟩,
    unscored_topics_never_flagged defaultDetectorConfig defaultScoringConfig [tA]
      [stNone] [] 3 5 (by decide) rfl (by decide) (by decide)⟩

/-- Claim C3: whenever the dependency edges of the topics list contain a
cycle, that is, some id is reachable from itself by a nonempty chain of
dependency edges, calculateScore fails with InvalidInput up front, whatever
the submissions argument. -/
theorem calculateScore_rejects_cycles (cfg : ScoringConfig) (topics : List Topic)
    (subs? : Option (List Submission)) (now : Nat)
    (h : HasDepCycle topics) :
    calculateScore cfg topics subs? now = .error .InvalidInput := by
  have hc : hasCycle topics = true := hasCycle_of_HasDepCycle h
  have hne : topics ≠ [] := by
    obtain ⟨a, htg⟩ := h
    obtain ⟨c, hac, -⟩ := Relation.TransGen.head'_iff.mp htg
    have hmem := DepEdge_mem hac
    intro h0
    rw [h0] at hmem
    simp [topicIds] at hmem
  unfold calculateScore
  simp [isEmpty_false_of_ne_nil hne, hc]

/-- Witness for claim C3 at a concrete input: a topic listing itself among
its dependencies. -/
theorem calculateScore_rejects_cycles_witness :
    HasDepCycle [tC] ∧
    calculateScore defaultScoringConfig [tC] (some []) 0 = .error .InvalidInput := by
  have hcyc : HasDepCycle [tC] := by
    refine ⟨"C", Relation.TransGen.single ?_⟩
    show "C" ∈ depIds [tC] "C"
    decide
  exact ⟨hcyc, calculateScore_rejects_cycles defaultScoringConfig [tC] (some []) 0 hcyc⟩

/-- Claim C6: extending the submissions by one additional corrected
submission holding a single fully correct answer for a topic, all else
unchanged, never decreases the performance score calculateScore computes for
that topic. -/
theorem calculateScore_monotone_in_correct_evidence (cfg : ScoringConfig)
    (topics : List Topic) (subs : List Submission) (s : Submission) (ans : Answer)
    (sc : ℚ) (tid : String) (now now2 : Nat) (out out2 : List ScoredTopic)
    (st st2 : ScoredTopic) (p p2 : ℚ)
    (hdec : 0 < cfg.decay)
    (hs : s.status = SubmissionStatus.corrected) (hans : s.answers = [ans])
    (hsc : ans.score = some sc) (hsc1 : 1 ≤ sc) (hat : ans.topics = [tid])
    (h1 : calculateScore cfg topics (some subs) now = .ok out)
    (h2 : calculateScore cfg topics (some (subs ++ [s])) now2 = .ok out2)
    (hst : st ∈ out) (hst2 : st2 ∈ out2) (hid : st.id = tid) (hid2 : st2.id = tid)
    (hp : st.performanceScore = some p) (hp2 : st2.performanceScore = some p2) :
    p ≤ p2 := by
  obtain ⟨-, -, -, hout⟩ := (calculateScore_some_ok_iff cfg topics subs now out).mp h1
  obtain ⟨-, -, -, hout2⟩ :=
    (calculateScore_some_ok_iff cfg topics (subs ++ [s]) now2 out2).mp h2
  subst hout
  subst hout2
  obtain ⟨t, htm, hteq⟩ := List.mem_map.mp hst
  obtain ⟨t2, htm2, hteq2⟩ := List.mem_map.mp hst2
  have hids : t.id = tid := by rw [← hid, ← hteq]; rfl
  have hids2 : t2.id = tid := by rw [← hid2, ← hteq2]; rfl
  have hpp : perfScore topics subs cfg.decay tid = some p := by
    rw [← hids, ← hp, ← hteq]
    rfl
  have hpp2 : perfScore topics (subs ++ [s]) cfg.decay tid = some p2 := by
    rw [← hids2, ← hp2, ← hteq2]
    rfl
  exact perfScore_monotone_single topics subs s ans sc tid cfg.decay hdec hs hans hsc
    hsc1 (by rw [hat]; exact List.mem_singleton_self tid) p p2 hpp hpp2

/-- Witness for claim C6 at a concrete input: one topic, one corrected half
score answer, then one additional fully correct answer. -/
theorem calculateScore_monotone_in_correct_evidence_witness :
    ((0:ℚ) < defaultScoringConfig.decay ∧
     subFull.status = SubmissionStatus.corrected ∧
     subFull.answers = [ansFull] ∧ ansFull.score = some 1 ∧ (1:ℚ) ≤ 1 ∧
     ansFull.topics = ["B"] ∧
     calculateScore defaultScoringConfig [tB] (some [subHalf]) 0 =
        .ok [scoreTopic defaultScoringConfig [tB] [subHalf] 0 tB] ∧
     calculateScore defaultScoringConfig [tB] (some ([subHalf] ++ [subFull])) 1 =
        .ok [scoreTopic defaultScoringConfig [tB] ([subHalf] ++ [subFull]) 1 tB] ∧
     (scoreTopic defaultScoringConfig [tB] [subHalf] 0 tB).performanceScore =
        some (evWV [tB] [subHalf] defaultScoringConfig.decay "B" /
              evW [tB] [subHalf] defaultScoringConfig.decay "B") ∧
     (scoreTopic defaultScoringConfig [tB] ([subHalf] ++ [subFull]) 1 tB).performanceScore =
        some (evWV [tB] ([subHalf] ++ [subFull]) defaultScoringConfig.decay "B" /
              evW [tB] ([subHalf] ++ [subFull]) defaultScoringConfig.decay "B")) ∧
    evWV [tB] [subHalf] defaultScoringConfig.decay "B" /
        evW [tB] [subHalf] defaultScoringConfig.decay "B" ≤
      evWV [tB] ([subHalf] ++ [subFull]) defaultScoringConfig.decay "B" /
        evW [tB] ([subHalf] ++ [subFull]) defaultScoringConfig.decay "B" := by
  have hdec : (0:ℚ) < defaultScoringConfig.decay := by norm_num [defaultScoringConfig]
  have hperf1 : (scoreTopic defaultScoringConfig [tB] [subHalf] 0 tB).performanceScore =
      some (evWV [tB] [subHalf] defaultScoringConfig.decay "B" /
            evW [tB] [subHalf] defaultScoringConfig.decay "B") := by
    show perfScore [tB] [subHalf] defaultScoringConfig.decay "B" = _
    unfold perfScore
    rw [if_neg (by decide)]
  have hperf2 : (scoreTopic defaultScoringConfig [tB] ([subHalf] ++ [subFull]) 1
        tB).performanceScore =
      some (evWV [tB] ([subHalf] ++ [subFull]) defaultScoringConfig.decay "B" /
            evW [tB] ([subHalf] ++ [subFull]) defaultScoringConfig.decay "B") := by
    show perfScore [tB] ([subHalf] ++ [subFull]) defaultScoringConfig.decay "B" = _
    unfold perfScore
    rw [if_neg (by decide)]
  refine ⟨⟨hdec, rfl, rfl, rfl, le_refl 1, rfl, rfl, rfl, hperf1, hperf2⟩, ?_⟩
  exact calculateScore_monotone_in_correct_evidence defaultScoringConfig [tB] [subHalf]
    subFull ansFull 1 "B" 0 1
    [scoreTopic defaultScoringConfig [tB] [subHalf] 0 tB]
    [scoreTopic defaultScoringConfig [tB] ([subHalf] ++ [subFull]) 1 tB]
    (scoreTopic defaultScoringConfig [tB] [subHalf] 0 tB)
    (scoreTopic defaultScoringConfig [tB] ([subHalf] ++ [subFull]) 1 tB)
    (evWV [tB] [subHalf] defaultScoringConfig.decay "B" /
      evW [tB] [subHalf] defaultScoringConfig.decay "B")
    (evWV [tB] ([subHalf] ++ [subFull]) defaultScoringConfig.decay "B" /
      evW [tB] ([subHalf] ++ [subFull]) defaultScoringConfig.decay "B")
    hdec rfl rfl rfl (le_refl 1) rfl rfl rfl (List.mem_singleton_self _)
    (List.mem_singleton_self _) rfl rfl hperf1 hperf2

/-- Claim C9: an ElevioCore built from a configuration reports exactly the
configured version and environment strings, and running the initialization
routine changes neither. -/
theorem elevioCore_reflects_config (c : ElevioConfig) :
    (ElevioCore.new c).getVersion = c.version ∧
    (ElevioCore.new c).getEnvironment = c.environment ∧
    ((ElevioCore.new c).initCore.1).getVersion = c.version ∧
    ((ElevioCore.new c).initCore.1).getEnvironment = c.environment :=
  ⟨rfl, rfl, rfl, rfl⟩

/-- Claim C10: the Datasource constructor is a total function that assigns
each of its seven arguments unchanged to the field of the same name,
performing no validation. -/
theorem datasource_constructor_assigns_fields (id tenantId : String)
    (status : DataSourceStatus) (config : DataSourceConfig)
    (lastSyncAt : Option Nat) (createdAt updatedAt : Nat) :
    (Datasource.make id tenantId status config lastSyncAt createdAt updatedAt).id = id ∧
    (Datasource.make id tenantId status config lastSyncAt createdAt updatedAt).tenantId = tenantId ∧
    (Datasource.make id tenantId status config lastSyncAt createdAt updatedAt).status = status ∧
    (Datasource.make id tenantId status config lastSyncAt createdAt updatedAt).config = config ∧
    (Datasource.make id tenantId status config lastSyncAt createdAt updatedAt).lastSyncAt = lastSyncAt ∧
    (Datasource.make id tenantId status config lastSyncAt createdAt updatedAt).createdAt = createdAt ∧
    (Datasource.make id tenantId status config lastSyncAt createdAt updatedAt).updatedAt = updatedAt :=
  ⟨rfl, rfl, rfl, rfl, rfl, rfl, rfl⟩

end Elevio
